import Mathlib

set_option maxRecDepth 8192

/-!
# Verification of `hashthepass`

Shallow embedding of the two utilities bundled in the repository:

* the password-hash generator (`index.js`, embedded in namespace `HashThePass`),
* the vendored package installer (`node_modules/component/lib/Package.js`,
  embedded in namespace `Component`).

The hash generator's collaborators `crypto.js` (CryptoJS `PBKDF2` /
`enc.Base64`) and `utils.js` (`getDomain`) are not part of the sources, so
they are modelled from the spec; the hash function itself is therefore
parameterised over the domain normalizer and the key-derivation function,
and concrete modelled instances are supplied for evaluation.
-/

namespace HashThePass

/-- ASCII lower-case test, embedding the JavaScript regex character class
`[a-z]` used in `index.js`. -/
def isLowerAscii (c : Char) : Bool := 97 ≤ c.toNat && c.toNat ≤ 122

/-- Embeds `encrypted.replace(/[a-z]/, function(m){ return m.toUpperCase(); })`
from `index.js`: a non-global regex replace, i.e. only the first match of
`[a-z]` is replaced by its upper-case form. -/
def upperFirstChars : List Char → List Char
  | [] => []
  | c :: cs => if isLowerAscii c then Char.toUpper c :: cs else c :: upperFirstChars cs

/-- String version of `upperFirstChars`. -/
def upperFirst (s : String) : String := String.mk (upperFirstChars s.data)

/-- One character of the standard base64 alphabet, by 6-bit index. -/
def base64Char (n : Nat) : Char :=
  if n < 26 then Char.ofNat (65 + n)
  else if n < 52 then Char.ofNat (97 + (n - 26))
  else if n < 62 then Char.ofNat (48 + (n - 52))
  else if n = 62 then '+'
  else '/'

/-- Modelled from the spec: `crypto.enc.Base64` (CryptoJS, not part of the
sources) — standard base64 encoding of a byte sequence, with `=` padding. -/
def base64Chunks : List Nat → List Char
  | b1 :: b2 :: b3 :: rest =>
    let n := b1 * 65536 + b2 * 256 + b3
    base64Char (n / 262144 % 64) :: base64Char (n / 4096 % 64) ::
      base64Char (n / 64 % 64) :: base64Char (n % 64) :: base64Chunks rest
  | [b1, b2] =>
    let n := b1 * 65536 + b2 * 256
    [base64Char (n / 262144 % 64), base64Char (n / 4096 % 64),
      base64Char (n / 64 % 64), '=']
  | [b1] =>
    let n := b1 * 65536
    [base64Char (n / 262144 % 64), base64Char (n / 4096 % 64), '=', '=']
  | [] => []

/-- Base64 encoding as a string. -/
def base64Encode (bs : List Nat) : String := String.mk (base64Chunks bs)

/-- Embeds the exported `hash` function of `index.js`:

```js
var hash = module.exports = function(url, pass) {
  url = getDomain(url);
  if(!url || !pass) return;
  var encrypted = crypto.PBKDF2(pass, url, { keySize: 64/32, iterations: 500 });
  encrypted = '$' + encrypted.toString(crypto.enc.Base64);
  encrypted = encrypted.replace(/[a-z]/, function(m) { return m.toUpperCase(); });
  return encrypted;
};
```

`getDomain` (from `utils.js`) and the key-derivation function (CryptoJS
`PBKDF2`, returning a byte sequence) are not in the sources, so the function
is parameterised over them; the code fixes the key size at `64/32 = 2`
words and the iteration count at `500`. `none` models JavaScript's
`undefined` return. -/
def hash (getDomain : String → String)
    (kdf : String → String → Nat → Nat → List Nat)
    (url pass : String) : Option String :=
  let domain := getDomain url
  if domain = "" || pass = "" then none
  else some (upperFirst ("$" ++ base64Encode (kdf pass domain 2 500)))

/-- Modelled from the spec: `utils.getDomain` (`utils.js` is not part of the
sources) — labels of a host name, split at the dots. -/
def splitOnDot : List Char → List (List Char)
  | [] => [[]]
  | c :: cs =>
    let r := splitOnDot cs
    if c = '.' then [] :: r
    else
      match r with
      | [] => [[c]]
      | g :: gs => (c :: g) :: gs

/-- Modelled from the spec: the TLD labels stripped by the domain
normalizer (enough for the examples of the spec: `accounts.google.com`,
`google.com`, `www.google.com.au`, `google`). -/
def tlds : List String := ["com", "net", "org", "edu", "gov", "co", "uk", "au"]

/-- Drop leading labels (of the reversed label list) that are TLDs. -/
def dropTlds : List String → List String
  | [] => []
  | l :: rest => if l ∈ tlds then dropTlds rest else l :: rest

/-- Modelled from the spec: `utils.getDomain` strips subdomains and TLD
variants, reducing a host name to its registrable site key — the examples
given in the spec, `accounts.google.com`, `google.com` and
`www.google.com.au`, all normalize to `google`. -/
def getDomain (url : String) : String :=
  match dropTlds ((splitOnDot url.data).map String.mk).reverse with
  | [] => ""
  | l :: _ => l

/-- One mixing step of the modelled key-derivation function. -/
def mix (acc : Nat) (c : Char) : Nat := (acc * 131 + c.toNat + 1) % 4294967296

/-- One pseudo-random step of the modelled key-derivation function. -/
def prf (x : Nat) : Nat := (x * 1103515245 + 12345) % 4294967296

/-- Modelled from the spec: `crypto.PBKDF2` (CryptoJS, not part of the
sources) — a deterministic key-derivation function turning a secret and a
salt into `keySize` 32-bit words (`4 * keySize` bytes), tuned by an
iteration count. -/
def PBKDF2 (pass salt : String) (keySize iterations : Nat) : List Nat :=
  let s0 := (pass.data ++ salt.data).foldl mix 2166136261
  let s1 := prf^[iterations] s0
  (List.range (keySize * 4)).map (fun i => prf^[i] s1 % 256)

end HashThePass

namespace Component

/-- A JavaScript error value, as the installer observes it: a message and an
optional `code` property (`fs` errors carry `"ENOENT"` when a file is
missing). -/
structure JsErr where
  msg : String
  code : Option String
deriving DecidableEq

/-- The `options` object of the `Package` constructor (`dest`, `force`);
absent fields model JavaScript `undefined`. -/
structure Options where
  dest : Option String
  force : Bool
deriving DecidableEq

/-- The state of one `Package` instance after construction: the fields set
by `function Package(pkg, version, options)` in `Package.js`. -/
structure Package where
  name : String
  dest : String
  force : Bool
  version : String
deriving DecidableEq

/-- Embeds the `Package` constructor (`Package.js`, lines 39-48):

```js
function Package(pkg, version, options) {
  options = options || {};
  if (!pkg) throw new Error('pkg required');
  if (!version) throw new Error('version required');
  this.name = pkg;
  this.dest = options.dest || 'components';
  this.force = !! options.force;
  this.version = version;
}
```

A thrown error is modelled as `Except.error` with the message; the JS
falsiness of the empty string is modelled explicitly. -/
def Package.create (pkg version : String) (options : Options) : Except String Package :=
  if pkg = "" then .error "pkg required"
  else if version = "" then .error "version required"
  else .ok
    { name := pkg
      dest :=
        match options.dest with
        | none => "components"
        | some d => if d = "" then "components" else d
      force := options.force
      version := version }

/-- Embeds `Package.prototype.dirname`: `join(this.dest, this.name.split('/').join('-'))`. -/
def Package.dirname (p : Package) : String :=
  p.dest ++ "/" ++ "-".intercalate (p.name.splitOn "/")

/-- Embeds `Package.prototype.join`: `join(this.dirname(), path)`. -/
def Package.join (p : Package) (path : String) : String :=
  p.dirname ++ "/" ++ path

/-- Embeds `Package.prototype.url`:
`'https://raw.github.com/' + this.name + '/' + this.version + '/' + file`. -/
def Package.url (p : Package) (file : String) : String :=
  "https://raw.github.com/" ++ p.name ++ "/" ++ p.version ++ "/" ++ file

/-- The remote `component.json` manifest shape used by `reallyInstall`:
`scripts`, `styles`, `templates`, `dependencies`, `repo`; absent properties
model JavaScript `undefined` (observed via truthiness checks). -/
structure Manifest where
  scripts : Option (List String)
  styles : Option (List String)
  templates : Option (List String)
  dependencies : Option (List (String × String))
  repo : Option String
deriving DecidableEq

/-- The file list of `reallyInstall`: the concatenation of `scripts`,
`styles` and `templates` (in that order), each skipped when absent. -/
def Manifest.files (m : Manifest) : List String :=
  (match m.scripts with | some s => s | none => []) ++
    (match m.styles with | some s => s | none => []) ++
      (match m.templates with | some s => s | none => [])

/-- The `repo` default of `reallyInstall`:
`json.repo = json.repo || 'https://github.com/' + self.name`. -/
def Manifest.repoResolved (m : Manifest) (name : String) : String :=
  match m.repo with
  | none => "https://github.com/" ++ name
  | some r => if r = "" then "https://github.com/" ++ name else r

/-- The terminal signals a `Package` emits: `'end'`, `'exists'`, `'error'`. -/
inductive Signal where
  | ended
  | alreadyExists
  | errored (e : JsErr)
deriving DecidableEq

/-- Embeds `Package.prototype.getLocalJSON` (`Package.js`, lines 101-111):
forwards a read error, otherwise parses the body, forwarding a parse
error. `parse` stands for `JSON.parse` (external). -/
def getLocalJSON (parse : String → Except JsErr Manifest)
    (readResult : Except JsErr String) : Except JsErr Manifest :=
  match readResult with
  | .error e => .error e
  | .ok s => parse s

/-- Modelled from the spec: the `batch` module (a dependency, not part of
the sources) — a batch of concurrently launched callbacks whose completion
is observed jointly.  Each task either never settles (`none`) or settles
with an optional error.  `end(fn)` calls `fn` with the first error as soon
as one is reported, with no argument once every task has settled
successfully, and never if some task never settles and no task errors. -/
def batchEnd (tasks : List (Option (Option JsErr))) : Option (Option JsErr) :=
  match tasks.filterMap (fun t => t.bind id) with
  | e :: _ => some (some e)
  | [] => if tasks.all Option.isSome then some none else none

/-- The `done` callback of one dependency task in
`Package.prototype.getDependencies` (`Package.js`, lines 201-209): it is
registered only on the `'end'` event (`pkg.on('end', done)`), so the task
settles (with no error) exactly when the dependency install emits `'end'`,
and never settles on `'exists'` or `'error'`. -/
def depTaskResult : Signal → Option (Option JsErr)
  | .ended => some none
  | .alreadyExists => none
  | .errored _ => none

/-- Completion behaviour of `Package.prototype.getDependencies`: one batch
task per dependency, each settling per `depTaskResult`; `batch.end(fn)`
decides if and how `fn` is invoked, given the terminal signal of each
dependency install. -/
def getDependenciesCompletion (outcomes : List Signal) : Option (Option JsErr) :=
  batchEnd (outcomes.map depTaskResult)

/-- The effective version of a dependency entry in
`Package.prototype.getDependencies`: `if ('*' == version) version = 'master'`. -/
def effectiveVersion (version : String) : String :=
  if version = "*" then "master" else version

/-- The `Package` instantiated for one dependency entry in
`Package.prototype.getDependencies`:
`new Package(name, version, { dest: self.dest, force: self.force })`. -/
def depPackage (parent : Package) (name version : String) : Except String Package :=
  Package.create name (effectiveVersion version) ⟨some parent.dest, parent.force⟩

/-- The asynchronous environment one `install()` run observes: the remote
manifest fetch result, the two `mkdirp` results, the manifest write result,
per-file fetch and write results, and the terminal signal of each
dependency install. -/
structure InstallEnv where
  getJSON : Except JsErr Manifest
  mkdirErr1 : Option JsErr
  mkdirErr2 : Option JsErr
  writeManifestErr : Option JsErr
  fetchErr : String → Option JsErr
  writeErr : String → Option JsErr
  depOutcome : String → Signal

/-- One file task of `Package.prototype.getFiles` (`Package.js`,
lines 151-165): a failed fetch settles with the fetch error, a successful
fetch settles with the result of writing the body to disk. -/
def fileTaskResult (env : InstallEnv) (file : String) : Option JsErr :=
  match env.fetchErr file with
  | some e => some e
  | none => env.writeErr file

/-- Completion of `Package.prototype.getFiles`: one batch task per file,
each always settling per `fileTaskResult`. -/
def getFilesCompletion (env : InstallEnv) (files : List String) : Option (Option JsErr) :=
  batchEnd (files.map (fun f => some (fileTaskResult env f)))

/-- The manifest-persisting task of `Package.prototype.reallyInstall`
(`Package.js`, lines 267-273): `mkdir(self.dirname(), function(err){ ... })`
disregards `err` and unconditionally writes `component.json`, so the task
settles with the write result whatever the mkdir result. -/
def mkdirThenWriteManifest (mkdirResult : Option JsErr) (writeResult : Option JsErr) :
    Option (Option JsErr) :=
  some writeResult

/-- The file-fetching task of `Package.prototype.reallyInstall`
(`Package.js`, lines 275-279): `mkdir(self.dirname(), function(err){ ... })`
disregards `err` and unconditionally runs `getFiles`. -/
def mkdirThenGetFiles (mkdirResult : Option JsErr) (filesCompletion : Option (Option JsErr)) :
    Option (Option JsErr) :=
  filesCompletion

/-- Embeds `Package.prototype.reallyInstall` (`Package.js`, lines 249-286):
fetch the remote manifest (an error is emitted as `'error'`); otherwise run
a batch of a dependency task (only if `json.dependencies` is truthy), the
manifest-persisting task and the file-fetching task; emit `'error'` with
the batch error or `'end'` on success.  The result is the terminal signal
(`none` if no signal is ever emitted), paired with the list of paths passed
to `fs.writeFile`: `component.json` always, plus every listed file whose
fetch succeeded. -/
def reallyInstall (p : Package) (env : InstallEnv) : Option Signal × List String :=
  match env.getJSON with
  | .error e => (some (.errored e), [])
  | .ok json =>
    let tasks :=
      (match json.dependencies with
        | some deps =>
          [getDependenciesCompletion (deps.map (fun d => env.depOutcome d.1))]
        | none => []) ++
      [mkdirThenWriteManifest env.mkdirErr1 env.writeManifestErr,
        mkdirThenGetFiles env.mkdirErr2 (getFilesCompletion env json.files)]
    let signal :=
      match batchEnd tasks with
      | none => none
      | some none => some Signal.ended
      | some (some e) => some (Signal.errored e)
    (signal,
      p.join "component.json" ::
        (json.files.filter (fun f => (env.fetchErr f).isNone)).map p.join)

/-- Embeds `Package.prototype.install` (`Package.js`, lines 222-241):
an invalid name (no `/`) emits `'error'` at once; otherwise branch on the
local manifest state: `ENOENT` → full install; any other error → `'error'`;
manifest present and `force` unset → `'exists'`; manifest present and
`force` set → full install.  Paired with the write operations performed. -/
def install (p : Package) (localJSON : Except JsErr Manifest) (env : InstallEnv) :
    Option Signal × List String :=
  if !(p.name.data.contains '/') then
    (some (.errored ⟨"invalid component name \"" ++ p.name ++ "\"", none⟩), [])
  else
    match localJSON with
    | .error e =>
      if e.code = some "ENOENT" then reallyInstall p env
      else (some (.errored e), [])
    | .ok _ =>
      if !p.force then (some Signal.alreadyExists, [])
      else reallyInstall p env

/-- A sample package descriptor with a valid owner/repo name, for concrete
evaluation. -/
def samplePackage : Package := ⟨"component/dialog", "components", false, "master"⟩

/-- A sample empty manifest, for concrete evaluation. -/
def sampleManifest : Manifest := ⟨none, none, none, none, none⟩

/-- A sample environment in which every asynchronous operation succeeds
except the remote manifest fetch, for concrete evaluation. -/
def sampleEnv : InstallEnv :=
  ⟨.error ⟨"failed to fetch", none⟩, none, none, none,
    fun _ => none, fun _ => none, fun _ => Signal.ended⟩

end Component

namespace HashThePass

theorem isLowerAscii_iff (c : Char) : isLowerAscii c = true ↔ 97 ≤ c.toNat ∧ c.toNat ≤ 122 := by
  simp [isLowerAscii]

theorem toUpper_of_lower (c : Char) (h : isLowerAscii c = true) :
    Char.toUpper c = Char.ofNat (c.toNat - 32) := by
  rw [isLowerAscii_iff] at h
  rw [Char.toUpper]
  rw [if_pos ⟨h.1, h.2⟩]

theorem toNat_ofNat_valid (n : Nat) (h : n < 55296) : (Char.ofNat n).toNat = n := by
  have hv : n.isValidChar := Or.inl h
  rw [Char.ofNat, dif_pos hv]
  simp [Char.ofNatAux, Char.toNat, UInt32.toNat]

theorem isUpper_iff (c : Char) : c.isUpper = true ↔ 65 ≤ c.toNat ∧ c.toNat ≤ 90 := by
  simp [Char.isUpper, UInt32.le_def, BitVec.le_def, Char.toNat, UInt32.toNat]

theorem isUpper_toUpper (c : Char) (h : isLowerAscii c = true) :
    (Char.toUpper c).isUpper = true := by
  have h2 := (isLowerAscii_iff c).mp h
  rw [toUpper_of_lower c h, isUpper_iff, toNat_ofNat_valid _ (by omega)]
  omega

theorem upperFirstChars_length (l : List Char) : (upperFirstChars l).length = l.length := by
  induction l with
  | nil => rfl
  | cons c cs ih =>
    by_cases h : isLowerAscii c = true <;> simp [upperFirstChars, h, ih]

theorem upperFirstChars_of_no_lower (l : List Char)
    (h : ∀ c ∈ l, isLowerAscii c = false) : upperFirstChars l = l := by
  induction l with
  | nil => rfl
  | cons c cs ih =>
    have hc : isLowerAscii c = false := h c (List.mem_cons_self c cs)
    simp [upperFirstChars, hc]
    exact ih fun x hx => h x (List.mem_cons_of_mem c hx)

theorem upperFirstChars_decomp (pre : List Char) (c : Char) (post : List Char)
    (hpre : ∀ x ∈ pre, isLowerAscii x = false) (hc : isLowerAscii c = true) :
    upperFirstChars (pre ++ c :: post) = pre ++ Char.toUpper c :: post := by
  induction pre with
  | nil => simp [upperFirstChars, hc]
  | cons a as ih =>
    have ha : isLowerAscii a = false := hpre a (List.mem_cons_self a as)
    simp only [List.cons_append, upperFirstChars, ha, Bool.false_eq_true, if_false]
    exact congrArg (a :: ·) (ih fun x hx => hpre x (List.mem_cons_of_mem a hx))

theorem exists_upper_of_exists_lower (l : List Char)
    (h : ∃ c ∈ l, isLowerAscii c = true) :
    ∃ c ∈ upperFirstChars l, c.isUpper = true := by
  induction l with
  | nil => simp at h
  | cons a as ih =>
    by_cases ha : isLowerAscii a = true
    · exact ⟨Char.toUpper a, by simp [upperFirstChars, ha], isUpper_toUpper a ha⟩
    · obtain ⟨c, hc, hlc⟩ := h
      rcases List.mem_cons.mp hc with rfl | hmem
      · exact absurd hlc ha
      · obtain ⟨d, hd, hu⟩ := ih ⟨c, hmem, hlc⟩
        refine ⟨d, ?_, hu⟩
        simp [upperFirstChars, ha]
        right
        exact hd

theorem base64Chunks_length_eight (bs : List Nat) (h : bs.length = 8) :
    (base64Chunks bs).length = 12 := by
  rcases bs with _|⟨a, _|⟨b, _|⟨c, _|⟨d, _|⟨e, _|⟨f, _|⟨g, _|⟨i, _|⟨j, t⟩⟩⟩⟩⟩⟩⟩⟩⟩ <;>
    simp_all [base64Chunks]

theorem upperFirst_length (t : String) : (upperFirst t).length = t.length := by
  cases t with
  | mk l => simp [upperFirst, upperFirstChars_length]

theorem data_dollar_append (t : String) : ("$" ++ t).data = '$' :: t.data := by
  simp [String.data_append]

theorem upperFirstChars_dollar (l : List Char) :
    upperFirstChars ('$' :: l) = '$' :: upperFirstChars l := by
  have h : isLowerAscii '$' = false := by decide
  simp [upperFirstChars, h]

/-- C7: for every (site, secret) pair where the domain normalization of the
site yields an empty result or the secret is empty, the hash function
returns an absent result (no error raised). -/
theorem hash_absent_on_empty (g : String → String)
    (kdf : String → String → Nat → Nat → List Nat) (url pass : String)
    (h : g url = "" ∨ pass = "") : hash g kdf url pass = none := by
  rcases h with h | h <;> simp [hash, h]

theorem hash_absent_on_empty_witness :
    getDomain "com" = "" ∧ hash getDomain PBKDF2 "com" "P@$$W0RD" = none ∧
      hash getDomain PBKDF2 "google.com" "" = none :=
  ⟨by decide,
    hash_absent_on_empty getDomain PBKDF2 "com" "P@$$W0RD" (Or.inl (by decide)),
    hash_absent_on_empty getDomain PBKDF2 "google.com" "" (Or.inr rfl)⟩

/-- C9: for every fixed non-empty secret and any two site identifiers whose
domain normalization yields the same non-empty key, the hash function
returns identical outputs for both site identifiers. -/
theorem hash_respects_domain_normalization (g : String → String)
    (kdf : String → String → Nat → Nat → List Nat) (s1 s2 pass : String)
    (hsame : g s1 = g s2) (_hne : g s1 ≠ "") (_hp : pass ≠ "") :
    hash g kdf s1 pass = hash g kdf s2 pass := by
  simp only [hash, hsame]

theorem hash_respects_domain_normalization_witness :
    getDomain "accounts.google.com" = "google" ∧
    getDomain "www.google.com.au" = "google" ∧
    getDomain "google.com" = "google" ∧
    hash getDomain PBKDF2 "accounts.google.com" "P@$$W0RD"
      = hash getDomain PBKDF2 "google.com" "P@$$W0RD" ∧
    hash getDomain PBKDF2 "www.google.com.au" "P@$$W0RD"
      = hash getDomain PBKDF2 "google.com" "P@$$W0RD" :=
  ⟨by decide, by decide, by decide,
    hash_respects_domain_normalization getDomain PBKDF2 "accounts.google.com"
      "google.com" "P@$$W0RD" (by decide) (by decide) (by decide),
    hash_respects_domain_normalization getDomain PBKDF2 "www.google.com.au"
      "google.com" "P@$$W0RD" (by decide) (by decide) (by decide)⟩

/-- C6: for every non-empty normalized domain and non-empty secret, the hash
is the key derived from the secret with the normalized domain as salt at the
fixed key size (2 words) and iteration count (500), base64-encoded, prefixed
with `$`, with exactly the first lowercase letter uppercased: a string with
a lowercase-free prefix followed by a lowercase letter has exactly that
letter uppercased and everything after it unchanged, and a string with no
lowercase letter at all is unchanged. -/
theorem hash_pipeline_single_substitution (g : String → String)
    (kdf : String → String → Nat → Nat → List Nat) (url pass : String)
    (hd : g url ≠ "") (hp : pass ≠ "") :
    hash g kdf url pass
        = some (upperFirst ("$" ++ base64Encode (kdf pass (g url) 2 500))) ∧
    (∀ pre c post, (∀ x ∈ pre, isLowerAscii x = false) → isLowerAscii c = true →
      upperFirstChars (pre ++ c :: post) = pre ++ Char.toUpper c :: post) ∧
    (∀ l, (∀ x ∈ l, isLowerAscii x = false) → upperFirstChars l = l) := by
  refine ⟨by simp [hash, hd, hp], upperFirstChars_decomp, upperFirstChars_of_no_lower⟩

theorem hash_pipeline_single_substitution_witness :
    hash getDomain PBKDF2 "google.com" "P@$$W0RD"
      = some (upperFirst ("$" ++ base64Encode (PBKDF2 "P@$$W0RD" (getDomain "google.com") 2 500))) :=
  (hash_pipeline_single_substitution getDomain PBKDF2 "google.com" "P@$$W0RD"
    (by decide) (by decide)).1

/-- C2 (counterexample): a key-derivation function complying with the fixed
configuration (8 derived bytes) whose base64 encoding contains no letters at
all yields a hash with no uppercase letter: the single-substitution rule
introduces an uppercase letter only when the base64 encoding contains a
lowercase one. -/
theorem hash_upper_counterexample :
    hash getDomain (fun _ _ _ _ => [211, 77, 52, 211, 77, 52, 211, 77])
        "google.com" "pw" = some "$00000000000=" ∧
    (∀ c ∈ ("$00000000000=" : String).data, c.isUpper = false) ∧
    (fun _ _ _ _ => [211, 77, 52, 211, 77, 52, 211, 77] : String → String → Nat → Nat → List Nat)
        "pw" (getDomain "google.com") 2 500 = [211, 77, 52, 211, 77, 52, 211, 77] := by
  refine ⟨by decide, by decide, rfl⟩

/-- C2 (amended): for every site identifier with non-empty normalized domain
and every non-empty secret, the hash starts with the fixed prefix `$`, and
whenever the base64 encoding of the derived key contains at least one
lowercase letter — in particular whenever it contains no uppercase letter
but some lowercase letter — the hash contains an uppercase letter
introduced by the single-substitution rule. -/
theorem hash_starts_dollar_and_conditional_upper (g : String → String)
    (kdf : String → String → Nat → Nat → List Nat) (url pass s : String)
    (hd : g url ≠ "") (hp : pass ≠ "")
    (hs : hash g kdf url pass = some s) :
    s.data.head? = some '$' ∧
    ((∃ c ∈ (base64Encode (kdf pass (g url) 2 500)).data, isLowerAscii c = true) →
      ∃ c ∈ s.data, c.isUpper = true) := by
  have hpipe : hash g kdf url pass
      = some (upperFirst ("$" ++ base64Encode (kdf pass (g url) 2 500))) := by
    simp [hash, hd, hp]
  rw [hpipe] at hs
  have hseq := (Option.some.inj hs).symm
  subst hseq
  constructor
  · rw [upperFirst]
    show (upperFirstChars (("$" ++ base64Encode (kdf pass (g url) 2 500)).data)).head? = some '$'
    rw [data_dollar_append, upperFirstChars_dollar]
    rfl
  · intro hex
    obtain ⟨d, hdm, hu⟩ := exists_upper_of_exists_lower _ hex
    refine ⟨d, ?_, hu⟩
    rw [upperFirst]
    show d ∈ upperFirstChars (("$" ++ base64Encode (kdf pass (g url) 2 500)).data)
    rw [data_dollar_append, upperFirstChars_dollar]
    exact List.mem_cons_of_mem _ hdm

theorem hash_starts_dollar_and_conditional_upper_witness :
    hash getDomain PBKDF2 "google.com" "P@$$W0RD" = some "$XRpLKEHmJ9Q=" ∧
    ("$XRpLKEHmJ9Q=" : String).data.head? = some '$' ∧
    (∃ c ∈ ("$XRpLKEHmJ9Q=" : String).data, c.isUpper = true) := by
  have h := hash_starts_dollar_and_conditional_upper getDomain PBKDF2
    "google.com" "P@$$W0RD" "$XRpLKEHmJ9Q=" (by decide) (by decide) (by decide)
  exact ⟨by decide, h.1, h.2 (by decide)⟩

/-- C1 (counterexample): with the modelled key-derivation function the hash
of `google.com` and `P@$$W0RD` is not the README sample `$83937863755a222f`. -/
theorem hash_google_readme_counterexample :
    hash getDomain PBKDF2 "google.com" "P@$$W0RD" ≠ some "$83937863755a222f" := by
  decide

/-- C1 (amended): for any key derivation whose output at the fixed
configuration (key size 2 words, 500 iterations) has the fixed size of
8 bytes, the hash of `google.com` and `P@$$W0RD` is a 13-character string
(`$` plus 12 characters of base64), which therefore cannot equal the
17-character README sample `$83937863755a222f`: the documented sample
reflects an older hex-encoded output format. -/
theorem hash_google_differs_from_readme_sample (g : String → String)
    (kdf : String → String → Nat → Nat → List Nat)
    (hd : g "google.com" ≠ "")
    (hk : (kdf "P@$$W0RD" (g "google.com") 2 500).length = 8) :
    ∃ s, hash g kdf "google.com" "P@$$W0RD" = some s ∧ s.length = 13 ∧
      s ≠ "$83937863755a222f" := by
  refine ⟨upperFirst ("$" ++ base64Encode (kdf "P@$$W0RD" (g "google.com") 2 500)),
    by simp [hash, hd], ?_, ?_⟩
  · rw [upperFirst_length]
    simp [base64Encode, base64Chunks_length_eight _ hk]
    decide
  · intro heq
    have hlen := congrArg String.length heq
    rw [upperFirst_length] at hlen
    simp [base64Encode, base64Chunks_length_eight _ hk] at hlen
    exact absurd hlen (by decide)

theorem hash_google_differs_from_readme_sample_witness :
    (PBKDF2 "P@$$W0RD" (getDomain "google.com") 2 500).length = 8 ∧
    hash getDomain PBKDF2 "google.com" "P@$$W0RD" ≠ some "$83937863755a222f" := by
  refine ⟨by decide, ?_⟩
  obtain ⟨s, hs, _, hne⟩ :=
    hash_google_differs_from_readme_sample getDomain PBKDF2 (by decide) (by decide)
  rw [hs]
  exact fun h => hne (Option.some.inj h)

end HashThePass

namespace Component

theorem depTaskResult_bind_id (s : Signal) : (depTaskResult s).bind id = none := by
  cases s <;> rfl

theorem depTask_filterMap (outcomes : List Signal) :
    (outcomes.map depTaskResult).filterMap (fun t => t.bind id) = [] := by
  induction outcomes with
  | nil => rfl
  | cons a as ih =>
    simp only [List.map_cons, List.filterMap_cons]
    rw [depTaskResult_bind_id a]
    exact ih

theorem getDependenciesCompletion_cases (outcomes : List Signal) :
    getDependenciesCompletion outcomes
      = if (outcomes.map depTaskResult).all Option.isSome then some none else none := by
  rw [getDependenciesCompletion, batchEnd, depTask_filterMap]

theorem depTaskResult_isSome_iff (s : Signal) :
    (depTaskResult s).isSome = true ↔ s = Signal.ended := by
  cases s <;> simp [depTaskResult]

/-- C3: the completion callback of `getDependencies` is registered only on
the `'end'` event of each dependency, so it fires (and then without error)
exactly when every dependency install emitted `'end'`; a dependency that
terminates with `'exists'` or `'error'` makes the batch hang forever, and a
failure of a dependency install is never reported to the caller. -/
theorem getDependencies_completion_behaviour (outcomes : List Signal) :
    getDependenciesCompletion [Signal.alreadyExists] = none ∧
    getDependenciesCompletion [Signal.errored ⟨"failed to fetch", none⟩] = none ∧
    (∀ r, getDependenciesCompletion outcomes = some r → r = none) ∧
    (getDependenciesCompletion outcomes = some none ↔ ∀ s ∈ outcomes, s = Signal.ended) := by
  refine ⟨by decide, by decide, ?_, ?_⟩
  · intro r h
    rw [getDependenciesCompletion_cases] at h
    split at h
    · exact (Option.some.inj h).symm
    · exact absurd h (by simp)
  · rw [getDependenciesCompletion_cases]
    constructor
    · intro h s hs
      split at h
      case isTrue hall =>
        have hmem := List.all_eq_true.mp hall _ (List.mem_map_of_mem depTaskResult hs)
        exact (depTaskResult_isSome_iff s).mp hmem
      case isFalse => exact absurd h (by simp)
    · intro h
      rw [if_pos]
      apply List.all_eq_true.mpr
      intro t ht
      obtain ⟨s, hs, rfl⟩ := List.mem_map.mp ht
      exact (depTaskResult_isSome_iff s).mpr (h s hs)

theorem getDependencies_completion_behaviour_witness :
    getDependenciesCompletion [Signal.ended] = some none :=
  (getDependencies_completion_behaviour [Signal.ended]).2.2.2.mpr (by decide)

/-- C4 (counterexample): constructing a package descriptor whose name lacks
the owner/repo separator does not fail: the constructor checks only that
name and version are present. -/
theorem package_create_no_separator_counterexample :
    Package.create "lodash" "1.0.0" ⟨none, false⟩
      = .ok ⟨"lodash", "components", false, "1.0.0"⟩ := rfl

/-- C4 (amended): construction fails with an invalid-input error exactly
when the name or the version is missing; a name lacking the owner/repo
separator constructs successfully, and it is `install()` that signals the
invalid-name error, as its very first action, independently of (and so
before) any filesystem or network access, with zero write operations. -/
theorem package_create_and_install_invalid_name
    (pkg version : String) (options : Options)
    (p : Package) (localJSON : Except JsErr Manifest) (env : InstallEnv)
    (hsep : '/' ∉ p.name.data) :
    ((∃ e, Package.create pkg version options = .error e) ↔ pkg = "" ∨ version = "") ∧
    install p localJSON env
      = (some (.errored ⟨"invalid component name \"" ++ p.name ++ "\"", none⟩), []) ∧
    (∀ localJSON2 env2, install p localJSON2 env2 = install p localJSON env) := by
  refine ⟨⟨?_, ?_⟩, ?_, ?_⟩
  · intro ⟨e, he⟩
    by_cases h1 : pkg = ""
    · exact Or.inl h1
    · by_cases h2 : version = ""
      · exact Or.inr h2
      · simp [Package.create, h1, h2] at he
  · intro h
    by_cases h1 : pkg = ""
    · exact ⟨"pkg required", by simp [Package.create, h1]⟩
    · rcases h with h | h
      · exact absurd h h1
      · exact ⟨"version required", by simp [Package.create, h1, h]⟩
  · simp [install, hsep]
  · intro l2 e2
    simp [install, hsep]

theorem package_create_and_install_invalid_name_witness :
    install ⟨"lodash", "components", false, "1.0.0"⟩ (.error ⟨"x", none⟩) sampleEnv
      = (some (.errored ⟨"invalid component name \"lodash\"", none⟩), []) ∧
    (∃ e, Package.create "" "1.0.0" ⟨none, false⟩ = .error e) := by
  have h := package_create_and_install_invalid_name "" "1.0.0" ⟨none, false⟩
    ⟨"lodash", "components", false, "1.0.0"⟩ (.error ⟨"x", none⟩) sampleEnv (by decide)
  exact ⟨h.2.1, h.1.mpr (Or.inl rfl)⟩

/-- C5: with a valid name, `install()` branches on the local manifest state
exactly as the spec says: `ENOENT` leads to the full install; a present
manifest with `force` unset signals `'exists'` with zero write operations;
a present manifest with `force` set leads to the full install; any other
local read or parse error is signalled as `'error'`; and `getLocalJSON`
forwards read errors unchanged and hands the body to the JSON parser
otherwise. -/
theorem install_branches (p : Package) (localJSON : Except JsErr Manifest)
    (env : InstallEnv) (hsep : '/' ∈ p.name.data) :
    (∀ e, localJSON = .error e → e.code = some "ENOENT" →
      install p localJSON env = reallyInstall p env) ∧
    (∀ m, localJSON = .ok m → p.force = false →
      install p localJSON env = (some Signal.alreadyExists, [])) ∧
    (∀ m, localJSON = .ok m → p.force = true →
      install p localJSON env = reallyInstall p env) ∧
    (∀ e, localJSON = .error e → e.code ≠ some "ENOENT" →
      install p localJSON env = (some (Signal.errored e), [])) ∧
    (∀ parse e, getLocalJSON parse (.error e) = .error e) ∧
    (∀ parse s, getLocalJSON parse (.ok s) = parse s) := by
  refine ⟨?_, ?_, ?_, ?_, fun _ _ => rfl, fun _ _ => rfl⟩
  · intro e he hcode
    subst he
    simp [install, hsep, hcode]
  · intro m hm hforce
    subst hm
    simp [install, hsep, hforce]
  · intro m hm hforce
    subst hm
    simp [install, hsep, hforce]
  · intro e he hcode
    subst he
    simp [install, hsep, hcode]

theorem install_branches_witness :
    install samplePackage (.error ⟨"no such file", some "ENOENT"⟩) sampleEnv
      = reallyInstall samplePackage sampleEnv ∧
    install samplePackage (.ok sampleManifest) sampleEnv
      = (some Signal.alreadyExists, []) ∧
    install samplePackage (.error ⟨"permission denied", some "EACCES"⟩) sampleEnv
      = (some (Signal.errored ⟨"permission denied", some "EACCES"⟩), []) := by
  refine ⟨?_, ?_, ?_⟩
  · exact (install_branches samplePackage _ sampleEnv (by decide)).1 _ rfl (by decide)
  · exact (install_branches samplePackage _ sampleEnv (by decide)).2.1 _ rfl (by decide)
  · exact (install_branches samplePackage _ sampleEnv (by decide)).2.2.2.1 _ rfl (by decide)

theorem effectiveVersion_ne_empty (version : String) (h : version ≠ "") :
    effectiveVersion version ≠ "" := by
  rw [effectiveVersion]
  split
  · decide
  · exact h

/-- C8: for every dependency entry, a wildcard version constraint resolves
to the default branch `master`, any other constraint is used literally, and
the package descriptor instantiated for the entry carries the parent's
destination directory and force flag. -/
theorem getDependencies_entry (parent : Package) (name version : String)
    (hn : name ≠ "") (hd : parent.dest ≠ "") :
    (depPackage parent name "*" = .ok ⟨name, parent.dest, parent.force, "master"⟩) ∧
    (effectiveVersion "*" = "master") ∧
    (version ≠ "*" → effectiveVersion version = version) ∧
    (version ≠ "" → depPackage parent name version
      = .ok ⟨name, parent.dest, parent.force, effectiveVersion version⟩) := by
  refine ⟨?_, rfl, ?_, ?_⟩
  · simp [depPackage, Package.create, effectiveVersion, hn, hd]
  · intro hv
    simp [effectiveVersion, hv]
  · intro hv
    have hev := effectiveVersion_ne_empty version hv
    simp [depPackage, Package.create, hn, hev, hd]

theorem getDependencies_entry_witness :
    depPackage ⟨"a/b", "mydir", true, "1.0"⟩ "c/d" "*"
      = .ok ⟨"c/d", "mydir", true, "master"⟩ :=
  (getDependencies_entry ⟨"a/b", "mydir", true, "1.0"⟩ "c/d" "*"
    (by decide) (by decide)).1

/-- C10: both `mkdir` callbacks of `reallyInstall` ignore their error
argument: the install outcome and the performed writes are unchanged under
any directory-creation results, the manifest-persisting task settles with
the manifest write result whatever the mkdir result, and the file-fetching
task runs `getFiles` whatever the mkdir result — so a directory-creation
failure by itself never produces the package's `'error'` signal. -/
theorem reallyInstall_ignores_mkdir_errors (p : Package) (env : InstallEnv)
    (e1 e2 : Option JsErr) :
    reallyInstall p { env with mkdirErr1 := e1, mkdirErr2 := e2 }
      = reallyInstall p env ∧
    (∀ w, mkdirThenWriteManifest e1 w = some w) ∧
    (∀ fc, mkdirThenGetFiles e2 fc = fc) :=
  ⟨rfl, fun _ => rfl, fun _ => rfl⟩

theorem reallyInstall_ignores_mkdir_errors_witness :
    reallyInstall samplePackage
        { sampleEnv with
            mkdirErr1 := some ⟨"permission denied", none⟩
            mkdirErr2 := some ⟨"permission denied", none⟩ }
      = reallyInstall samplePackage sampleEnv :=
  (reallyInstall_ignores_mkdir_errors samplePackage sampleEnv
    (some ⟨"permission denied", none⟩) (some ⟨"permission denied", none⟩)).1

end Component
